import Mathlib

/-!
# Verification of `plink2weka.py`

A shallow embedding of the PLINK-to-ARFF transcoder `src/plink2weka.py`.

Modelling conventions:
* A text file is a `List String` of its lines.
* Python `str.split()` (split on whitespace runs, dropping empty tokens) is
  `pySplit`.
* The Python dict `feature_dict` is an association list `Dict`
  (`List (String × List String)`); assignment `d[k] = v` is `dictSet`
  (replace in place, else append) and `d[k]` is `dictFind`, with a
  `KeyError` modelled as `none`.
* A Python `set` of genotype strings is a duplicate-free `List String` in
  insertion order; `s.add(x)` is `setAdd` (a no-op when the element is
  present).  Python's set iteration order is implementation defined; the
  model fixes insertion order, which is the deterministic order of one run.
* Exceptions (`IndexError` from out-of-range subscripts, `KeyError`,
  `AssertionError` from the `assert` statement) are modelled by `Except Err`.
* The `csv.writer` emits a row as the comma-separated join of its fields
  (no field of this data model contains a comma, quote or newline, so the
  CSV quoting rules never fire).
-/

namespace Plink2Weka

/-- Errors with which the Python script can abort. -/
inductive Err where
  | indexError : Err
  | keyError : Err
  | assertError : Err
  deriving DecidableEq, Repr

/-- Whitespace characters recognised by Python `str.split()` that occur in
this data model (the inputs are space/tab delimited lines). -/
def isSpace (c : Char) : Bool := c = ' ' || c = '\t'

/-- Helper for `pySplit`: walks the character list, `acc` holds the current
token's characters in reverse. -/
def wordsAux : List Char → List Char → List String
  | [], acc => if acc = [] then [] else [String.mk acc.reverse]
  | c :: cs, acc =>
    if isSpace c then
      if acc = [] then wordsAux cs [] else String.mk acc.reverse :: wordsAux cs []
    else wordsAux cs (c :: acc)

/-- Python `line.split()`: split on runs of whitespace, no empty tokens. -/
def pySplit (s : String) : List String := wordsAux s.data []

/-- The Python dict mapping SNP identifiers to genotype sets
(`feature_dict` in the source). -/
abbrev Dict := List (String × List String)

/-- Python dict read `d[k]`: the value of the first entry with key `k`;
`none` models the `KeyError` raised when the key is absent. -/
def dictFind : Dict → String → Option (List String)
  | [], _ => none
  | (k', v') :: rest, k => if k' = k then some v' else dictFind rest k

/-- The key list of a dict, in entry order. -/
def keys (d : Dict) : List String := d.map Prod.fst

/-- Python dict assignment `d[k] = v`: replace the entry in place if the key
is present, otherwise append a new entry. -/
def dictSet : Dict → String → List String → Dict
  | [], k, v => [(k, v)]
  | (k', v') :: rest, k, v =>
    if k' = k then (k, v) :: rest else (k', v') :: dictSet rest k v

/-- Python `s.add(x)` on a set modelled as a duplicate-free list in insertion
order: a no-op when `x` is already present. -/
def setAdd (s : List String) (x : String) : List String :=
  if x ∈ s then s else s ++ [x]

/-- Python `d[k].add(g)` (`features[snp_list[j]].add(currSNP)` in the
source): `none` models the `KeyError` raised when the key is absent. -/
def dictAddTo : Dict → String → String → Option Dict
  | [], _, _ => none
  | (k', v') :: rest, k, g =>
    if k' = k then some ((k', setAdd v' g) :: rest)
    else (dictAddTo rest k g).map (fun d => (k', v') :: d)

/-- Body of `build_features` (src/plink2weka.py lines 92-112): fold over the map
file's lines, taking the second whitespace-delimited field of each line as
the SNP identifier, assigning it a fresh set `{'00'}` in the dict and
appending it to the ordered SNP list.  A line with fewer than two fields
raises `IndexError` (`line.split()[1]`). -/
def buildFeaturesAux : Dict → List String → List String → Except Err (Dict × List String)
  | feature_dict, snp_list, [] => .ok (feature_dict, snp_list)
  | feature_dict, snp_list, line :: rest =>
    match (pySplit line).get? 1 with
    | none => .error .indexError
    | some currSNP =>
        buildFeaturesAux (dictSet feature_dict currSNP ["00"]) (snp_list ++ [currSNP]) rest

/-- Function `build_features(map_file)` from the source. -/
def build_features (map_file : List String) : Except Err (Dict × List String) :=
  buildFeaturesAux [] [] map_file

/-- The `while i < len(currLine)` loop of `write_examplars`
(src/plink2weka.py lines 143-147): consume the allele tokens two at a time;
concatenate each pair into a genotype encoding, append it to `outline` and
add it to the set of the SNP at position `j`.  `currLine[i+1]` on an odd
tail and `snp_list[j]` past the end raise `IndexError`. -/
def pairLoop (snp_list : List String) :
    Dict → List String → Nat → List String → Except Err (Dict × List String)
  | features, [], _, outline => .ok (features, outline)
  | _, [_], _, _ => .error .indexError
  | features, a :: b :: rest, j, outline =>
    let currSNP := a ++ b
    match snp_list.get? j with
    | none => .error .indexError
    | some snp =>
        match dictAddTo features snp currSNP with
        | none => .error .keyError
        | some features' =>
            pairLoop snp_list features' rest (j + 1) (outline ++ [currSNP])

/-- The phenotype missing-data sentinel (`MISSING = '-9'` in the source). -/
def MISSING : String := "-9"

/-- Processing of one pedigree line in `write_examplars` (src/plink2weka.py
lines 130-156): read the phenotype at token index 5 (`IndexError` when there
are fewer than six tokens), skip the line when it is the missing sentinel,
otherwise run the pair loop on the tokens from index 6 on, assert that the
number of genotype encodings equals the number of dict entries
(`assert(len(outline) == len(features))`), and append
`outline ++ [phenotype]` as a row. -/
def processLine (snp_list : List String) (features : Dict)
    (rows : List (List String)) (line : String) :
    Except Err (Dict × List (List String)) :=
  let currLine := pySplit line
  match currLine.get? 5 with
  | none => .error .indexError
  | some phenotype =>
      if phenotype = MISSING then .ok (features, rows)
      else
        match pairLoop snp_list features (currLine.drop 6) 0 [] with
        | .error e => .error e
        | .ok (features', outline) =>
            if outline.length = features'.length then
              .ok (features', rows ++ [outline ++ [phenotype]])
            else .error .assertError

/-- Function `write_examplars(ped_file, features, examplars, snp_list)` from the
source: process every pedigree line in order; `rows` is the content written
to the examplar file so far (one list of fields per CSV row). -/
def write_examplars (snp_list : List String) :
    Dict → List (List String) → List String → Except Err (Dict × List (List String))
  | features, rows, [] => .ok (features, rows)
  | features, rows, line :: rest =>
    match processLine snp_list features rows line with
    | .error e => .error e
    | .ok (features', rows') => write_examplars snp_list features' rows' rest

/-- Function `printable_attributes(genotype_set)` from the source: concatenate every
element followed by a comma, then drop the final character. -/
def printable_attributes (genotype_set : List String) : String :=
  (String.join (genotype_set.map (fun item => item ++ ","))).dropRight 1

/-- One `@attribute` header line
(`ATTRIBUTE = "@attribute {0} {{{1}}}\n"` in the source). -/
def attributeLine (name vals : String) : String :=
  "@attribute " ++ name ++ " \x7b" ++ vals ++ "\x7d"

/-- The attribute lines of the header (`for snp in snp_list: ...` in
`write_arff_file`): one `@attribute` line per SNP in `snp_list` order, each
printing the SNP's genotype set; `none` models the `KeyError` raised by
`features[snp]` when a SNP is not a dict key. -/
def attrLines (features : Dict) : List String → Option (List String)
  | [] => some []
  | snp :: rest =>
      match dictFind features snp, attrLines features rest with
      | some s, some ls => some (attributeLine snp (printable_attributes s) :: ls)
      | _, _ => none

/-- Function `write_arff_file(features, snp_list, arff, data)` from the source, as
the list of lines of the resulting ARFF file: the relation line, one
attribute line per SNP in `snp_list` order, the fixed phenotype attribute
line, the `@data` marker, then the examplar rows verbatim. -/
def write_arff_file (features : Dict) (snp_list : List String)
    (rows : List (List String)) (data : String) : Option (List String) :=
  match attrLines features snp_list with
  | none => none
  | some attrs =>
      some (("@relation \x27" ++ data ++ "\x27") :: attrs
        ++ [attributeLine "phenotype" "1,2", "@data"]
        ++ rows.map (fun r => String.intercalate "," r))

/-- The transcoding result of one run of `main`: the final feature dict, the
SNP order, and the examplar rows of the primary and (optional) validation
datasets. -/
structure RunOut where
  features : Dict
  snp_list : List String
  rows : List (List String)
  vrows : Option (List (List String))
  deriving DecidableEq, Repr

/-- The transcoding phase of `main` (src/plink2weka.py lines 214-240):
build the features from the map file, write the primary examplars, and, when
a validation pedigree is supplied, write its examplars with the same shared
feature dict and SNP list. -/
def runTranscode (map_file ped_file : List String)
    (vped_file : Option (List String)) : Except Err RunOut :=
  match build_features map_file with
  | .error e => .error e
  | .ok (features, snp_list) =>
      match write_examplars snp_list features [] ped_file with
      | .error e => .error e
      | .ok (features1, rows) =>
          match vped_file with
          | none => .ok ⟨features1, snp_list, rows, none⟩
          | some vped =>
              match write_examplars snp_list features1 [] vped with
              | .error e => .error e
              | .ok (features2, vrows) => .ok ⟨features2, snp_list, rows, some vrows⟩

/-- Function `main` (src/plink2weka.py lines 214-252): transcode, then emit the
primary ARFF file and, when a validation dataset is supplied, the validation
ARFF file, both from the final shared feature dict and SNP list. -/
def run (map_file ped_file : List String) (vped_file : Option (List String))
    (data vdata : String) : Except Err (List String × Option (List String)) :=
  match runTranscode map_file ped_file vped_file with
  | .error e => .error e
  | .ok o =>
      match write_arff_file o.features o.snp_list o.rows data with
      | none => .error .keyError
      | some arff =>
          match o.vrows with
          | none => .ok (arff, none)
          | some vrows =>
              match write_arff_file o.features o.snp_list vrows vdata with
              | none => .error .keyError
              | some varff => .ok (arff, some varff)

/-- The data section of an emitted ARFF file: the lines after the `@data`
marker. -/
def dataSection (arff : List String) : List String :=
  (arff.dropWhile (fun l => l ≠ "@data")).drop 1

/-- The header section of an emitted ARFF file: the lines before the `@data`
marker. -/
def headerSection (arff : List String) : List String :=
  arff.takeWhile (fun l => l ≠ "@data")

/-- Pointwise domination of feature dicts: every entry of `f` is still
present in `f'` with a superset value.  The transcoding passes only grow the
genotype sets, so each pass produces a dict dominating its input. -/
def dictLE (f f' : Dict) : Prop :=
  ∀ k v, dictFind f k = some v → ∃ v', dictFind f' k = some v' ∧ v ⊆ v'

/-- The genotype columns of a row respect the alphabets: the entry at
position `i` belongs to the set of the SNP at position `i`. -/
def genotypesOk (snp_list : List String) (f : Dict) (out : List String) : Prop :=
  ∀ i g, out.get? i = some g →
    ∃ snp alph, snp_list.get? i = some snp ∧ dictFind f snp = some alph ∧ g ∈ alph

/-! ## Basic lemmas about the dict and set model -/

theorem mem_setAdd_self (s : List String) (x : String) : x ∈ setAdd s x := by
  by_cases h : x ∈ s <;> simp [setAdd, h]

theorem subset_setAdd (s : List String) (x : String) : s ⊆ setAdd s x := by
  by_cases h : x ∈ s <;> simp [setAdd, h, List.subset_append_left]

theorem length_keys (d : Dict) : (keys d).length = d.length := by
  simp [keys]

theorem dictLE_refl (f : Dict) : dictLE f f :=
  fun k v h => ⟨v, h, fun _ ha => ha⟩

theorem dictLE_trans {f g h : Dict} (h₁ : dictLE f g) (h₂ : dictLE g h) : dictLE f h := by
  intro k v hv
  obtain ⟨v', hv', hsub⟩ := h₁ k v hv
  obtain ⟨v'', hv'', hsub'⟩ := h₂ k v' hv'
  exact ⟨v'', hv'', fun a ha => hsub' (hsub ha)⟩

theorem dictFind_mem_keys : ∀ (d : Dict) (k : String), k ∈ keys d → ∃ v, dictFind d k = some v
  | [], _, h => by simp [keys] at h
  | (k', v') :: rest, k, h => by
      by_cases he : k' = k
      · exact ⟨v', by simp [dictFind, he]⟩
      · have hk : k ∈ keys rest := by
          simp [keys] at h ⊢
          tauto
        obtain ⟨v, hv⟩ := dictFind_mem_keys rest k hk
        exact ⟨v, by simp [dictFind, he, hv]⟩

theorem mem_keys_of_dictFind : ∀ (d : Dict) (k : String) (v : List String),
    dictFind d k = some v → k ∈ keys d
  | [], _, _, h => by simp [dictFind] at h
  | (k', v') :: rest, k, v, h => by
      by_cases he : k' = k
      · simp [keys, he]
      · simp only [dictFind, he, if_false] at h
        have := mem_keys_of_dictFind rest k v h
        simp [keys] at this ⊢
        tauto

theorem dictAddTo_some : ∀ (d : Dict) (k : String) (g : String), k ∈ keys d →
    ∃ d', dictAddTo d k g = some d'
  | [], _, _, h => by simp [keys] at h
  | (k', v') :: rest, k, g, h => by
      by_cases he : k' = k
      · exact ⟨(k', setAdd v' g) :: rest, by simp [dictAddTo, he]⟩
      · have hk : k ∈ keys rest := by
          simp [keys] at h ⊢
          tauto
        obtain ⟨d', hd'⟩ := dictAddTo_some rest k g hk
        exact ⟨(k', v') :: d', by simp [dictAddTo, he, hd']⟩

theorem dictAddTo_keys : ∀ (d : Dict) (k g : String) (d' : Dict),
    dictAddTo d k g = some d' → keys d' = keys d
  | [], _, _, _, h => by simp [dictAddTo] at h
  | (k', v') :: rest, k, g, d', h => by
      by_cases he : k' = k
      · simp only [dictAddTo, he, if_pos] at h
        cases h
        simp [keys, he]
      · simp only [dictAddTo, he, if_neg, Option.map_eq_some', not_false_iff] at h
        obtain ⟨d'', hd'', rfl⟩ := h
        have hrec := dictAddTo_keys rest k g d'' hd''
        simp only [keys] at hrec ⊢
        simp [hrec]

theorem dictAddTo_find_self : ∀ (d : Dict) (k g : String) (d' : Dict),
    dictAddTo d k g = some d' →
    ∃ v, dictFind d k = some v ∧ dictFind d' k = some (setAdd v g)
  | [], _, _, _, h => by simp [dictAddTo] at h
  | (k', v') :: rest, k, g, d', h => by
      by_cases he : k' = k
      · simp only [dictAddTo, he, if_pos] at h
        cases h
        exact ⟨v', by simp [dictFind, he]⟩
      · simp only [dictAddTo, he, if_neg, Option.map_eq_some', not_false_iff] at h
        obtain ⟨d'', hd'', rfl⟩ := h
        obtain ⟨v, hv, hv'⟩ := dictAddTo_find_self rest k g d'' hd''
        exact ⟨v, by simp [dictFind, he, hv], by simp [dictFind, he, hv']⟩

theorem dictAddTo_find_ne : ∀ (d : Dict) (k g : String) (d' : Dict) (k' : String),
    dictAddTo d k g = some d' → k' ≠ k → dictFind d' k' = dictFind d k'
  | [], _, _, _, _, h => by simp [dictAddTo] at h
  | (ka, va) :: rest, k, g, d', k', h => by
      intro hne
      by_cases he : ka = k
      · simp only [dictAddTo, he, if_pos] at h
        cases h
        subst he
        simp only [dictFind]
        rw [if_neg (fun hc => hne hc.symm), if_neg (fun hc => hne hc.symm)]
      · simp only [dictAddTo, he, if_neg, Option.map_eq_some', not_false_iff] at h
        obtain ⟨d'', hd'', rfl⟩ := h
        by_cases hk : ka = k'
        · simp [dictFind, hk]
        · simp [dictFind, hk, dictAddTo_find_ne rest k g d'' k' hd'' hne]

theorem dictAddTo_le (d : Dict) (k g : String) (d' : Dict)
    (h : dictAddTo d k g = some d') : dictLE d d' := by
  intro k' v hv
  by_cases he : k' = k
  · subst he
    obtain ⟨w, hw, hw'⟩ := dictAddTo_find_self d k' g d' h
    rw [hv] at hw
    cases hw
    exact ⟨setAdd v g, hw', subset_setAdd v g⟩
  · exact ⟨v, by rw [dictAddTo_find_ne d k g d' k' h he, hv], fun _ ha => ha⟩

/-! ## Lemmas about the pair-consuming loop of `write_examplars` -/

theorem genotypesOk_mono {snp_list : List String} {f f' : Dict} {out : List String}
    (hle : dictLE f f') (h : genotypesOk snp_list f out) : genotypesOk snp_list f' out := by
  intro i g hg
  obtain ⟨snp, alph, hsnp, hfind, hmem⟩ := h i g hg
  obtain ⟨alph', hfind', hsub⟩ := hle snp alph hfind
  exact ⟨snp, alph', hsnp, hfind', hsub hmem⟩

theorem pairLoop_ok (snp_list : List String) : ∀ (alleles : List String) (f : Dict) (j : Nat)
    (out : List String) (f' : Dict) (out' : List String),
    pairLoop snp_list f alleles j out = .ok (f', out') →
    keys f' = keys f ∧ 2 * out'.length = 2 * out.length + alleles.length ∧ dictLE f f'
  | [], f, j, out, f', out' => by
      intro h
      simp only [pairLoop] at h
      cases h
      exact ⟨rfl, by simp, dictLE_refl f⟩
  | [a], f, j, out, f', out' => by
      intro h
      exact Except.noConfusion h
  | a :: b :: rest, f, j, out, f', out' => by
      intro h
      cases hg : snp_list.get? j with
      | none =>
          simp only [pairLoop, hg] at h
          exact Except.noConfusion h
      | some snp =>
          cases hd : dictAddTo f snp (a ++ b) with
          | none =>
              simp only [pairLoop, hg, hd] at h
              exact Except.noConfusion h
          | some f2 =>
              simp only [pairLoop, hg, hd] at h
              obtain ⟨hkeys, hlen, hle⟩ :=
                pairLoop_ok snp_list rest f2 (j + 1) (out ++ [a ++ b]) f' out' h
              refine ⟨hkeys.trans (dictAddTo_keys f snp (a ++ b) f2 hd), ?_, ?_⟩
              · simp at hlen ⊢
                omega
              · exact dictLE_trans (dictAddTo_le f snp (a ++ b) f2 hd) hle

theorem pairLoop_ok_of_even (snp_list : List String) : ∀ (m : Nat) (alleles : List String)
    (f : Dict) (j : Nat) (out : List String),
    alleles.length = 2 * m → j + m ≤ snp_list.length → (∀ s ∈ snp_list, s ∈ keys f) →
    ∃ f' out', pairLoop snp_list f alleles j out = .ok (f', out')
  | 0, alleles, f, j, out => by
      intro hlen _ _
      have : alleles = [] := List.eq_nil_of_length_eq_zero (by omega)
      subst this
      exact ⟨f, out, rfl⟩
  | m + 1, [], f, j, out => by
      intro hlen _ _
      exfalso
      simp at hlen
  | m + 1, [a], f, j, out => by
      intro hlen _ _
      exfalso
      simp at hlen
      omega
  | m + 1, a :: b :: rest, f, j, out => by
      intro hlen hj hkeys
      have hjlt : j < snp_list.length := by omega
      obtain ⟨snp, hsnp⟩ : ∃ snp, snp_list.get? j = some snp := by
        rw [List.get?_eq_get hjlt]
        exact ⟨_, rfl⟩
      have hsnpmem : snp ∈ snp_list := List.get?_mem hsnp
      obtain ⟨f2, hf2⟩ := dictAddTo_some f snp (a ++ b) (hkeys snp hsnpmem)
      have hkeys2 : ∀ s ∈ snp_list, s ∈ keys f2 := by
        intro s hs
        rw [dictAddTo_keys f snp (a ++ b) f2 hf2]
        exact hkeys s hs
      obtain ⟨f', out', hrec⟩ := pairLoop_ok_of_even snp_list m rest f2 (j + 1)
        (out ++ [a ++ b]) (by simp at hlen ⊢; omega) (by omega) hkeys2
      exact ⟨f', out', by simp only [pairLoop, hsnp, hf2]; exact hrec⟩

theorem pairLoop_error (snp_list : List String) : ∀ (alleles : List String) (f : Dict)
    (j : Nat) (out : List String),
    (alleles.length % 2 = 1 ∨ 2 * (snp_list.length - j) < alleles.length) →
    ∃ e, pairLoop snp_list f alleles j out = .error e
  | [], f, j, out => by
      intro h
      exfalso
      rcases h with h | h
      · simp at h
      · simp at h
  | [a], f, j, out => by
      intro _
      exact ⟨.indexError, rfl⟩
  | a :: b :: rest, f, j, out => by
      intro h
      cases hg : snp_list.get? j with
      | none => exact ⟨.indexError, by simp only [pairLoop, hg]⟩
      | some snp =>
          have hjlt : j < snp_list.length := by
            by_contra hc
            rw [List.get?_eq_none.mpr (by omega)] at hg
            exact Option.noConfusion hg
          cases hd : dictAddTo f snp (a ++ b) with
          | none => exact ⟨.keyError, by simp only [pairLoop, hg, hd]⟩
          | some f2 =>
              obtain ⟨e, he⟩ := pairLoop_error snp_list rest f2 (j + 1) (out ++ [a ++ b])
                (by simp only [List.length_cons] at h ⊢; omega)
              exact ⟨e, by simp only [pairLoop, hg, hd]; exact he⟩

theorem pairLoop_genotypesOk (snp_list : List String) : ∀ (alleles : List String) (f : Dict)
    (out : List String) (f' : Dict) (out' : List String),
    pairLoop snp_list f alleles out.length out = .ok (f', out') →
    genotypesOk snp_list f out → genotypesOk snp_list f' out'
  | [], f, out, f', out' => by
      intro h hok
      simp only [pairLoop] at h
      cases h
      exact hok
  | [a], f, out, f', out' => by
      intro h
      exact Except.noConfusion h
  | a :: b :: rest, f, out, f', out' => by
      intro h hok
      cases hg : snp_list.get? out.length with
      | none =>
          simp only [pairLoop, hg] at h
          exact Except.noConfusion h
      | some snp =>
          cases hd : dictAddTo f snp (a ++ b) with
          | none =>
              simp only [pairLoop, hg, hd] at h
              exact Except.noConfusion h
          | some f2 =>
              simp only [pairLoop, hg, hd] at h
              have hlen : (out ++ [a ++ b]).length = out.length + 1 := by simp
              have hok2 : genotypesOk snp_list f2 (out ++ [a ++ b]) := by
                intro i g hg'
                rcases Nat.lt_or_ge i out.length with hi | hi
                · rw [List.get?_append hi] at hg'
                  exact genotypesOk_mono (dictAddTo_le f snp (a ++ b) f2 hd) hok i g hg'
                · have hi2 : i < out.length + 1 := by
                    by_contra hc
                    rw [List.get?_eq_none.mpr (by simp; omega)] at hg'
                    exact Option.noConfusion hg'
                  have hieq : i = out.length := by omega
                  subst hieq
                  have : g = a ++ b := by
                    rw [List.get?_append_right (Nat.le_refl _)] at hg'
                    simp at hg'
                    exact hg'.symm
                  subst this
                  obtain ⟨v, _, hv'⟩ := dictAddTo_find_self f snp (a ++ b) f2 hd
                  exact ⟨snp, setAdd v (a ++ b), hg, hv', mem_setAdd_self v (a ++ b)⟩
              exact pairLoop_genotypesOk snp_list rest f2 (out ++ [a ++ b]) f' out'
                (by rw [hlen]; exact h) hok2

/-! ## Lemmas about `processLine` and `write_examplars` -/

theorem keys_eq_length {f f' : Dict} (h : keys f' = keys f) : f'.length = f.length := by
  rw [← length_keys, ← length_keys, h]

theorem processLine_missing (snp_list : List String) (f : Dict) (rows : List (List String))
    (line : String) (h : (pySplit line).get? 5 = some MISSING) :
    processLine snp_list f rows line = .ok (f, rows) := by
  simp only [processLine, h]
  simp

theorem processLine_not_missing (snp_list : List String) (f : Dict)
    (rows : List (List String)) (line : String) (p : String)
    (hp : (pySplit line).get? 5 = some p) (hm : p ≠ MISSING) :
    processLine snp_list f rows line =
      match pairLoop snp_list f ((pySplit line).drop 6) 0 [] with
      | .error e => .error e
      | .ok (f', outline) =>
          if outline.length = f'.length then .ok (f', rows ++ [outline ++ [p]])
          else .error .assertError := by
  simp only [processLine, hp]
  rw [if_neg hm]

theorem processLine_ok (snp_list : List String) (f : Dict) (rows : List (List String))
    (line : String) (f' : Dict) (rows' : List (List String))
    (h : processLine snp_list f rows line = .ok (f', rows')) :
    keys f' = keys f ∧ dictLE f f' ∧
      (rows' = rows ∨ ∃ out p, rows' = rows ++ [out ++ [p]] ∧
        (pySplit line).get? 5 = some p ∧ p ≠ MISSING ∧ genotypesOk snp_list f' out) := by
  cases hp : (pySplit line).get? 5 with
  | none =>
      simp only [processLine, hp] at h
      exact Except.noConfusion h
  | some p =>
      by_cases hm : p = MISSING
      · subst hm
        rw [processLine_missing snp_list f rows line hp] at h
        cases h
        exact ⟨rfl, dictLE_refl f, Or.inl rfl⟩
      · rw [processLine_not_missing snp_list f rows line p hp hm] at h
        cases hpair : pairLoop snp_list f ((pySplit line).drop 6) 0 [] with
        | error e =>
            rw [hpair] at h
            exact Except.noConfusion h
        | ok res =>
            obtain ⟨f2, out⟩ := res
            rw [hpair] at h
            dsimp only at h
            by_cases hassert : out.length = f2.length
            · rw [if_pos hassert] at h
              rw [Except.ok.injEq, Prod.mk.injEq] at h
              obtain ⟨rfl, rfl⟩ := h
              obtain ⟨hkeys, _, hle⟩ := pairLoop_ok snp_list _ f 0 [] f2 out hpair
              refine ⟨hkeys, hle, Or.inr ⟨out, p, rfl, rfl, hm, ?_⟩⟩
              exact pairLoop_genotypesOk snp_list _ f [] f2 out hpair
                (fun i g hg => by simp at hg)
            · rw [if_neg hassert] at h
              exact Except.noConfusion h

theorem processLine_ok_of_wf (snp_list : List String) (f : Dict)
    (rows : List (List String)) (line : String) (p : String)
    (hkeys : ∀ s ∈ snp_list, s ∈ keys f) (hflen : f.length = snp_list.length)
    (hp : (pySplit line).get? 5 = some p) (hnp : p ≠ MISSING)
    (hl : (pySplit line).length = 6 + 2 * snp_list.length) :
    ∃ f' out, processLine snp_list f rows line = .ok (f', rows ++ [out ++ [p]]) := by
  have halen : ((pySplit line).drop 6).length = 2 * snp_list.length := by
    simp [hl]
  obtain ⟨f2, out, hpair⟩ := pairLoop_ok_of_even snp_list snp_list.length
    ((pySplit line).drop 6) f 0 [] halen (by omega) hkeys
  obtain ⟨hkeys2, hlen2, _⟩ := pairLoop_ok snp_list _ f 0 [] f2 out hpair
  have hzl : (([] : List String)).length = 0 := rfl
  rw [halen, hzl] at hlen2
  have hf2 : f2.length = f.length := keys_eq_length hkeys2
  have houtlen : out.length = f2.length := by omega
  refine ⟨f2, out, ?_⟩
  rw [processLine_not_missing snp_list f rows line p hp hnp, hpair]
  dsimp only
  rw [if_pos houtlen]

theorem processLine_error_of_misaligned (snp_list : List String) (f : Dict)
    (rows : List (List String)) (line : String) (p : String)
    (hkeys : ∀ s ∈ snp_list, s ∈ keys f) (hflen : f.length = snp_list.length)
    (hp : (pySplit line).get? 5 = some p) (hnp : p ≠ MISSING)
    (hl : (pySplit line).length ≠ 6 + 2 * snp_list.length) :
    ∃ e, processLine snp_list f rows line = .error e := by
  have h5 : 5 < (pySplit line).length := by
    by_contra hc
    rw [List.get?_eq_none.mpr (by omega)] at hp
    exact Option.noConfusion hp
  have halen : ((pySplit line).drop 6).length = (pySplit line).length - 6 := by simp
  rcases Nat.even_or_odd ((pySplit line).length - 6) with ⟨m, hm⟩ | hodd
  · rcases Nat.lt_trichotomy m snp_list.length with hlt | heq | hgt
    · obtain ⟨f2, out, hpair⟩ := pairLoop_ok_of_even snp_list m
        ((pySplit line).drop 6) f 0 [] (by omega) (by omega) hkeys
      obtain ⟨hkeys2, hlen2, _⟩ := pairLoop_ok snp_list _ f 0 [] f2 out hpair
      have hzl : (([] : List String)).length = 0 := rfl
      rw [halen, hzl] at hlen2
      have hf2 : f2.length = f.length := keys_eq_length hkeys2
      have hne : ¬ out.length = f2.length := by omega
      refine ⟨.assertError, ?_⟩
      rw [processLine_not_missing snp_list f rows line p hp hnp, hpair]
      dsimp only
      rw [if_neg hne]
    · omega
    · obtain ⟨e, hpair⟩ := pairLoop_error snp_list ((pySplit line).drop 6) f 0 []
        (Or.inr (by rw [halen]; omega))
      refine ⟨e, ?_⟩
      rw [processLine_not_missing snp_list f rows line p hp hnp, hpair]
  · obtain ⟨k, hk⟩ := hodd
    obtain ⟨e, hpair⟩ := pairLoop_error snp_list ((pySplit line).drop 6) f 0 []
      (Or.inl (by rw [halen]; omega))
    refine ⟨e, ?_⟩
    rw [processLine_not_missing snp_list f rows line p hp hnp, hpair]
theorem write_examplars_ok (snp_list : List String) : ∀ (ped : List String) (f : Dict)
    (rows : List (List String)) (f' : Dict) (rows' : List (List String)),
    write_examplars snp_list f rows ped = .ok (f', rows') →
    keys f' = keys f ∧ dictLE f f' ∧ ∃ newRows, rows' = rows ++ newRows ∧
      ∀ r ∈ newRows, ∃ out p, r = out ++ [p] ∧ genotypesOk snp_list f' out ∧
        ∃ line ∈ ped, (pySplit line).get? 5 = some p ∧ p ≠ MISSING
  | [], f, rows, f', rows' => by
      intro h
      simp only [write_examplars] at h
      rw [Except.ok.injEq, Prod.mk.injEq] at h
      obtain ⟨rfl, rfl⟩ := h
      exact ⟨rfl, dictLE_refl f, [], by simp, by simp⟩
  | line :: rest, f, rows, f', rows' => by
      intro h
      cases hpl : processLine snp_list f rows line with
      | error e =>
          simp only [write_examplars, hpl] at h
          exact Except.noConfusion h
      | ok res =>
          obtain ⟨f1, rows1⟩ := res
          simp only [write_examplars, hpl] at h
          obtain ⟨hkeys1, hle1, hsplit⟩ := processLine_ok snp_list f rows line f1 rows1 hpl
          obtain ⟨hkeys2, hle2, newRows, hrows, hprops⟩ :=
            write_examplars_ok snp_list rest f1 rows1 f' rows' h
          refine ⟨hkeys2.trans hkeys1, dictLE_trans hle1 hle2, ?_⟩
          rcases hsplit with hsame | ⟨out, p, hr1, hp, hnp, hgok⟩
          · subst hsame
            exact ⟨newRows, hrows, fun r hr => by
              obtain ⟨o, q, he, hg, l, hl, hq, hnq⟩ := hprops r hr
              exact ⟨o, q, he, hg, l, List.mem_cons_of_mem line hl, hq, hnq⟩⟩
          · subst hr1
            refine ⟨(out ++ [p]) :: newRows, by simp [hrows], ?_⟩
            intro r hr
            rcases List.mem_cons.mp hr with hrh | hrt
            · subst hrh
              exact ⟨out, p, rfl, genotypesOk_mono hle2 hgok,
                line, List.mem_cons_self line rest, hp, hnp⟩
            · obtain ⟨o, q, he, hg, l, hl, hq, hnq⟩ := hprops r hrt
              exact ⟨o, q, he, hg, l, List.mem_cons_of_mem line hl, hq, hnq⟩

theorem write_examplars_count (snp_list : List String) : ∀ (ped : List String) (f : Dict)
    (rows : List (List String)),
    (∀ s ∈ snp_list, s ∈ keys f) → f.length = snp_list.length →
    (∀ line ∈ ped, ∃ p, (pySplit line).get? 5 = some p ∧
        (p ≠ MISSING → (pySplit line).length = 6 + 2 * snp_list.length)) →
    ∃ f' newRows, write_examplars snp_list f rows ped = .ok (f', rows ++ newRows) ∧
      newRows.length + (ped.filter (fun l => (pySplit l).get? 5 = some MISSING)).length
        = ped.length
  | [], f, rows => by
      intro _ _ _
      exact ⟨f, [], by simp [write_examplars], by simp⟩
  | line :: rest, f, rows => by
      intro hkeys hflen hped
      obtain ⟨p, hp, hwf⟩ := hped line (List.mem_cons_self line rest)
      by_cases hm : p = MISSING
      · subst hm
        have hpl := processLine_missing snp_list f rows line hp
        obtain ⟨f', newRows, hrec, hcount⟩ := write_examplars_count snp_list rest f rows
          hkeys hflen (fun l hl => hped l (List.mem_cons_of_mem line hl))
        refine ⟨f', newRows, by simp only [write_examplars, hpl]; exact hrec, ?_⟩
        have hfilt : (List.filter (fun l => decide ((pySplit l).get? 5 = some MISSING))
            (line :: rest)).length
            = (List.filter (fun l => decide ((pySplit l).get? 5 = some MISSING)) rest).length
              + 1 := by
          have hp2 : (pySplit line)[5]? = some MISSING := by
            rw [← List.get?_eq_getElem?]
            exact hp
          simp [List.filter_cons, hp2]
        simp only [List.length_cons, hfilt]
        omega
      · obtain ⟨f1, out, hpl⟩ := processLine_ok_of_wf snp_list f rows line p hkeys hflen
          hp hm (hwf hm)
        obtain ⟨hkeys1, _, _⟩ := processLine_ok snp_list f rows line f1 _ hpl
        obtain ⟨f', newRows, hrec, hcount⟩ := write_examplars_count snp_list rest f1
          (rows ++ [out ++ [p]])
          (fun s hs => by rw [hkeys1]; exact hkeys s hs)
          (by rw [keys_eq_length hkeys1]; exact hflen)
          (fun l hl => hped l (List.mem_cons_of_mem line hl))
        refine ⟨f', (out ++ [p]) :: newRows,
          by simp only [write_examplars, hpl]; simpa using hrec, ?_⟩
        have hfilt : (List.filter (fun l => decide ((pySplit l).get? 5 = some MISSING))
            (line :: rest)).length
            = (List.filter (fun l => decide ((pySplit l).get? 5 = some MISSING)) rest).length := by
          have hne : ¬ ((pySplit line).get? 5 = some MISSING) := by
            rw [hp]
            intro hc
            exact hm (Option.some.inj hc)
          have hne2 : ¬ ((pySplit line)[5]? = some MISSING) := by
            rw [← List.get?_eq_getElem?]
            exact hne
          simp [List.filter_cons, hne2]
        simp only [List.length_cons, hfilt]
        omega

/-! ## Lemmas about `build_features` -/

theorem dictFind_dictSet_self : ∀ (d : Dict) (k : String) (v : List String),
    dictFind (dictSet d k v) k = some v
  | [], k, v => by simp [dictSet, dictFind]
  | (k0, v0) :: rest, k, v => by
      by_cases he : k0 = k
      · simp [dictSet, dictFind, he]
      · simp [dictSet, dictFind, he, dictFind_dictSet_self rest k v]

theorem dictFind_dictSet_ne : ∀ (d : Dict) (k : String) (v : List String) (k' : String),
    k' ≠ k → dictFind (dictSet d k v) k' = dictFind d k'
  | [], k, v, k' => by
      intro hne
      simp only [dictSet, dictFind]
      rw [if_neg (fun hc => hne hc.symm)]
  | (k0, v0) :: rest, k, v, k' => by
      intro hne
      by_cases he : k0 = k
      · subst he
        simp only [dictSet, if_pos rfl, dictFind]
        rw [if_neg (fun hc => hne hc.symm), if_neg (fun hc => hne hc.symm)]
      · simp [dictSet, dictFind, he, dictFind_dictSet_ne rest k v k' hne]

theorem mem_keys_dictSet : ∀ (d : Dict) (k : String) (v : List String) (s : String),
    s ∈ keys (dictSet d k v) ↔ s ∈ keys d ∨ s = k
  | [], k, v, s => by simp [dictSet, keys, eq_comm]
  | (k0, v0) :: rest, k, v, s => by
      by_cases he : k0 = k
      · subst he
        simp [dictSet, keys, eq_comm]
        tauto
      · simp only [dictSet, he, if_neg, not_false_iff, keys, List.map_cons, List.mem_cons]
        have := mem_keys_dictSet rest k v s
        simp only [keys] at this
        rw [this]
        tauto

theorem keys_dictSet_not_mem : ∀ (d : Dict) (k : String) (v : List String),
    k ∉ keys d → keys (dictSet d k v) = keys d ++ [k]
  | [], k, v => by simp [dictSet, keys]
  | (k0, v0) :: rest, k, v => by
      intro hnm
      simp only [keys, List.map_cons, List.mem_cons] at hnm
      push_neg at hnm
      obtain ⟨h0, hrest⟩ := hnm
      have h0' : ¬ (k0 = k) := fun hc => h0 hc.symm
      have := keys_dictSet_not_mem rest k v (by simpa [keys] using hrest)
      simp only [dictSet, h0', if_neg, not_false_iff, keys, List.map_cons] at this ⊢
      simp [this]

theorem nodup_keys_dictSet : ∀ (d : Dict) (k : String) (v : List String),
    (keys d).Nodup → (keys (dictSet d k v)).Nodup := by
  intro d k v hnd
  by_cases hm : k ∈ keys d
  · -- replacement in place: same keys
    induction d with
    | nil => simp [keys] at hm
    | cons hd tl ih =>
        obtain ⟨k0, v0⟩ := hd
        by_cases he : k0 = k
        · subst he
          simp only [dictSet, if_pos]
          simpa [keys] using hnd
        · simp only [keys, List.map_cons, List.nodup_cons] at hnd
          have hm' : k ∈ keys tl := by
            simp only [keys, List.map_cons, List.mem_cons] at hm
            rcases hm with hcm | hcm
            · exact absurd hcm.symm he
            · exact hcm
          have := ih hnd.2 hm'
          simp only [dictSet, he, if_neg, not_false_iff, keys, List.map_cons,
            List.nodup_cons]
          refine ⟨?_, this⟩
          intro hc
          have : k0 ∈ keys (dictSet tl k v) := by simpa [keys] using hc
          rw [mem_keys_dictSet tl k v k0] at this
          rcases this with hc' | hc'
          · exact hnd.1 (by simpa [keys] using hc')
          · exact he hc'
  · rw [keys_dictSet_not_mem d k v hm]
    simp [List.nodup_append, hnd, hm]

theorem buildFeaturesAux_snps : ∀ (lines : List String) (f0 : Dict) (sl0 : List String)
    (f : Dict) (sl : List String),
    buildFeaturesAux f0 sl0 lines = .ok (f, sl) →
    ∃ tl, sl = sl0 ++ tl ∧ tl.length = lines.length ∧
      ∀ i l, lines.get? i = some l → tl.get? i = (pySplit l).get? 1
  | [], f0, sl0, f, sl => by
      intro h
      simp only [buildFeaturesAux] at h
      rw [Except.ok.injEq, Prod.mk.injEq] at h
      obtain ⟨rfl, rfl⟩ := h
      exact ⟨[], by simp, by simp, fun i l hl => by simp at hl⟩
  | line :: rest, f0, sl0, f, sl => by
      intro h
      cases hc : (pySplit line).get? 1 with
      | none =>
          simp only [buildFeaturesAux, hc] at h
          exact Except.noConfusion h
      | some currSNP =>
          simp only [buildFeaturesAux, hc] at h
          obtain ⟨tl', hsl, hlen, hpt⟩ := buildFeaturesAux_snps rest
            (dictSet f0 currSNP ["00"]) (sl0 ++ [currSNP]) f sl h
          refine ⟨currSNP :: tl', by simp [hsl], by simp [hlen], ?_⟩
          intro i l hl
          cases i with
          | zero =>
              simp only [List.get?] at hl ⊢
              cases hl
              exact hc.symm
          | succ n =>
              simp only [List.get?] at hl ⊢
              exact hpt n l hl

theorem buildFeaturesAux_error : ∀ (lines : List String) (f0 : Dict) (sl0 : List String),
    (∃ e, buildFeaturesAux f0 sl0 lines = .error e) ↔
      ∃ line ∈ lines, (pySplit line).get? 1 = none
  | [], f0, sl0 => by
      constructor
      · intro ⟨e, h⟩
        simp only [buildFeaturesAux] at h
        exact Except.noConfusion h
      · intro ⟨line, hl, _⟩
        exact absurd hl (List.not_mem_nil line)
  | line :: rest, f0, sl0 => by
      cases hc : (pySplit line).get? 1 with
      | none =>
          constructor
          · intro _
            exact ⟨line, List.mem_cons_self line rest, hc⟩
          · intro _
            exact ⟨.indexError, by simp only [buildFeaturesAux, hc]⟩
      | some currSNP =>
          constructor
          · intro ⟨e, h⟩
            simp only [buildFeaturesAux, hc] at h
            obtain ⟨l, hl, hln⟩ := (buildFeaturesAux_error rest
              (dictSet f0 currSNP ["00"]) (sl0 ++ [currSNP])).mp ⟨e, h⟩
            exact ⟨l, List.mem_cons_of_mem line hl, hln⟩
          · intro ⟨l, hl, hln⟩
            rcases List.mem_cons.mp hl with rfl | hl'
            · rw [hc] at hln
              exact Option.noConfusion hln
            · obtain ⟨e, he⟩ := (buildFeaturesAux_error rest
                (dictSet f0 currSNP ["00"]) (sl0 ++ [currSNP])).mpr ⟨l, hl', hln⟩
              exact ⟨e, by simp only [buildFeaturesAux, hc]; exact he⟩

theorem buildFeaturesAux_inv : ∀ (lines : List String) (f0 : Dict) (sl0 : List String)
    (f : Dict) (sl : List String),
    buildFeaturesAux f0 sl0 lines = .ok (f, sl) →
    (keys f0).Nodup → (∀ s, s ∈ keys f0 ↔ s ∈ sl0) →
    (∀ s v, dictFind f0 s = some v → v = ["00"]) →
    (keys f).Nodup ∧ (∀ s, s ∈ keys f ↔ s ∈ sl) ∧
      (∀ s v, dictFind f s = some v → v = ["00"])
  | [], f0, sl0, f, sl => by
      intro h hnd hmem hval
      simp only [buildFeaturesAux] at h
      rw [Except.ok.injEq, Prod.mk.injEq] at h
      obtain ⟨rfl, rfl⟩ := h
      exact ⟨hnd, hmem, hval⟩
  | line :: rest, f0, sl0, f, sl => by
      intro h hnd hmem hval
      cases hc : (pySplit line).get? 1 with
      | none =>
          simp only [buildFeaturesAux, hc] at h
          exact Except.noConfusion h
      | some currSNP =>
          simp only [buildFeaturesAux, hc] at h
          refine buildFeaturesAux_inv rest (dictSet f0 currSNP ["00"]) (sl0 ++ [currSNP])
            f sl h (nodup_keys_dictSet f0 currSNP ["00"] hnd) ?_ ?_
          · intro s
            rw [mem_keys_dictSet]
            simp only [List.mem_append, List.mem_singleton]
            rw [hmem s]
          · intro s v hv
            by_cases he : s = currSNP
            · subst he
              rw [dictFind_dictSet_self] at hv
              exact (Option.some.inj hv).symm
            · rw [dictFind_dictSet_ne f0 currSNP ["00"] s he] at hv
              exact hval s v hv

theorem buildFeaturesAux_keys_of_nodup : ∀ (lines : List String) (f0 : Dict)
    (sl0 : List String) (f : Dict) (sl : List String),
    buildFeaturesAux f0 sl0 lines = .ok (f, sl) → keys f0 = sl0 → sl.Nodup →
    keys f = sl
  | [], f0, sl0, f, sl => by
      intro h hk _
      simp only [buildFeaturesAux] at h
      rw [Except.ok.injEq, Prod.mk.injEq] at h
      obtain ⟨rfl, rfl⟩ := h
      exact hk
  | line :: rest, f0, sl0, f, sl => by
      intro h hk hnd
      cases hc : (pySplit line).get? 1 with
      | none =>
          simp only [buildFeaturesAux, hc] at h
          exact Except.noConfusion h
      | some currSNP =>
          simp only [buildFeaturesAux, hc] at h
          obtain ⟨tl, hsl, _, _⟩ := buildFeaturesAux_snps rest
            (dictSet f0 currSNP ["00"]) (sl0 ++ [currSNP]) f sl h
          have hpre : (sl0 ++ [currSNP]).Nodup := by
            rw [hsl] at hnd
            exact List.Nodup.sublist (List.sublist_append_left (sl0 ++ [currSNP]) tl) hnd
          have hnm : currSNP ∉ sl0 := by
            rw [List.nodup_append] at hpre
            intro hc'
            exact hpre.2.2 hc' (List.mem_singleton_self currSNP)
          exact buildFeaturesAux_keys_of_nodup rest (dictSet f0 currSNP ["00"])
            (sl0 ++ [currSNP]) f sl h
            (by rw [keys_dictSet_not_mem f0 currSNP ["00"] (hk ▸ hnm), hk]) hnd

theorem build_features_inv (map_file : List String) (f : Dict) (sl : List String)
    (h : build_features map_file = .ok (f, sl)) :
    (keys f).Nodup ∧ (∀ s, s ∈ keys f ↔ s ∈ sl) ∧
      (∀ s ∈ sl, dictFind f s = some ["00"]) := by
  obtain ⟨hnd, hmem, hval⟩ := buildFeaturesAux_inv map_file [] [] f sl h
    (by simp [keys]) (by simp [keys]) (by intro s v hv; simp [dictFind] at hv)
  refine ⟨hnd, hmem, ?_⟩
  intro s hs
  obtain ⟨v, hv⟩ := dictFind_mem_keys f s ((hmem s).mpr hs)
  rw [hv, hval s v hv]

theorem build_features_keys (map_file : List String) (f : Dict) (sl : List String)
    (h : build_features map_file = .ok (f, sl)) (hnd : sl.Nodup) : keys f = sl :=
  buildFeaturesAux_keys_of_nodup map_file [] [] f sl h (by simp [keys]) hnd


/-! ## Lemmas about `write_arff_file` and the emitted file structure -/

theorem relation_ne_data (data : String) : ("@relation \x27" ++ data ++ "\x27") ≠ "@data" := by
  intro h
  have hl := congrArg String.length h
  have h1 : ("@relation \x27" : String).length = 11 := rfl
  have h2 : ("\x27" : String).length = 1 := rfl
  have h3 : ("@data" : String).length = 5 := rfl
  rw [String.length_append, String.length_append, h1, h2, h3] at hl
  omega

theorem attributeLine_ne_data (n v : String) : attributeLine n v ≠ "@data" := by
  intro h
  have hl := congrArg String.length h
  simp only [attributeLine, String.length_append] at hl
  have h1 : ("@attribute " : String).length = 11 := rfl
  have h2 : (" \x7b" : String).length = 2 := rfl
  have h3 : ("\x7d" : String).length = 1 := rfl
  have h4 : ("@data" : String).length = 5 := rfl
  rw [h1, h2, h3, h4] at hl
  omega

theorem attrLines_some (f : Dict) : ∀ (sl : List String),
    (∀ s ∈ sl, s ∈ keys f) → ∃ attrs, attrLines f sl = some attrs
  | [] => fun _ => ⟨[], rfl⟩
  | snp :: rest => by
      intro hkeys
      obtain ⟨v, hv⟩ := dictFind_mem_keys f snp (hkeys snp (List.mem_cons_self snp rest))
      obtain ⟨attrs, hattrs⟩ := attrLines_some f rest
        (fun s hs => hkeys s (List.mem_cons_of_mem snp hs))
      exact ⟨attributeLine snp (printable_attributes v) :: attrs,
        by simp only [attrLines, hv, hattrs]⟩

theorem attrLines_shape (f : Dict) : ∀ (sl : List String) (attrs : List String),
    attrLines f sl = some attrs → ∀ a ∈ attrs, ∃ n v, a = attributeLine n v
  | [], attrs => by
      intro h a ha
      simp only [attrLines] at h
      cases h
      exact absurd ha (List.not_mem_nil a)
  | snp :: rest, attrs => by
      intro h a ha
      cases hv : dictFind f snp with
      | none =>
          simp only [attrLines, hv] at h
          exact Option.noConfusion h
      | some v =>
          cases hrest : attrLines f rest with
          | none =>
              simp only [attrLines, hv, hrest] at h
              exact Option.noConfusion h
          | some ls =>
              simp only [attrLines, hv, hrest] at h
              cases h
              rcases List.mem_cons.mp ha with rfl | ha'
              · exact ⟨snp, printable_attributes v, rfl⟩
              · exact attrLines_shape f rest ls hrest a ha'

theorem attrLines_pointwise (f : Dict) : ∀ (sl : List String) (attrs : List String),
    attrLines f sl = some attrs →
    attrs.length = sl.length ∧ ∀ i snp, sl.get? i = some snp →
      ∃ v, dictFind f snp = some v ∧
        attrs.get? i = some (attributeLine snp (printable_attributes v))
  | [], attrs => by
      intro h
      simp only [attrLines] at h
      cases h
      exact ⟨rfl, fun i snp hs => by simp at hs⟩
  | snp :: rest, attrs => by
      intro h
      cases hv : dictFind f snp with
      | none =>
          simp only [attrLines, hv] at h
          exact Option.noConfusion h
      | some v =>
          cases hrest : attrLines f rest with
          | none =>
              simp only [attrLines, hv, hrest] at h
              exact Option.noConfusion h
          | some ls =>
              simp only [attrLines, hv, hrest] at h
              cases h
              obtain ⟨hlen, hpt⟩ := attrLines_pointwise f rest ls hrest
              refine ⟨by simp [hlen], ?_⟩
              intro i s hs
              cases i with
              | zero =>
                  simp only [List.get?] at hs ⊢
                  cases hs
                  exact ⟨v, hv, rfl⟩
              | succ n =>
                  simp only [List.get?] at hs ⊢
                  exact hpt n s hs

theorem takeWhile_until_data (post : List String) : ∀ (pre : List String),
    (∀ a ∈ pre, a ≠ "@data") →
    (pre ++ "@data" :: post).takeWhile (fun l => l ≠ "@data") = pre ∧
    (pre ++ "@data" :: post).dropWhile (fun l => l ≠ "@data") = "@data" :: post
  | [] => by
      intro _
      constructor
      · simp [List.takeWhile]
      · simp [List.dropWhile]
  | a :: rest => by
      intro hpre
      have ha : a ≠ "@data" := hpre a (List.mem_cons_self a rest)
      obtain ⟨ht, hd⟩ := takeWhile_until_data post rest
        (fun b hb => hpre b (List.mem_cons_of_mem a hb))
      constructor
      · rw [List.cons_append, List.takeWhile_cons_of_pos, ht]
        simp [ha]
      · rw [List.cons_append, List.dropWhile_cons_of_pos, hd]
        simp [ha]

theorem write_arff_file_structure (f : Dict) (sl : List String) (rows : List (List String))
    (data : String) (arff : List String) (h : write_arff_file f sl rows data = some arff) :
    ∃ attrs, attrLines f sl = some attrs ∧
      arff = ("@relation \x27" ++ data ++ "\x27") :: attrs
        ++ [attributeLine "phenotype" "1,2", "@data"]
        ++ rows.map (fun r => String.intercalate "," r) ∧
      headerSection arff
        = ("@relation \x27" ++ data ++ "\x27") :: attrs ++ [attributeLine "phenotype" "1,2"] ∧
      dataSection arff = rows.map (fun r => String.intercalate "," r) := by
  cases hattrs : attrLines f sl with
  | none =>
      simp only [write_arff_file, hattrs] at h
      exact Option.noConfusion h
  | some attrs =>
      simp only [write_arff_file, hattrs] at h
      cases h
      have hpre : ∀ a ∈ ("@relation \x27" ++ data ++ "\x27")
          :: attrs ++ [attributeLine "phenotype" "1,2"], a ≠ "@data" := by
        intro a ha
        rcases List.mem_cons.mp ha with rfl | ha'
        · exact relation_ne_data data
        · rcases List.mem_append.mp ha' with ha'' | ha''
          · obtain ⟨n, v, rfl⟩ := attrLines_shape f sl attrs hattrs a ha''
            exact attributeLine_ne_data n v
          · rw [List.mem_singleton.mp ha'']
            exact attributeLine_ne_data "phenotype" "1,2"
      have hassoc : ("@relation \x27" ++ data ++ "\x27") :: attrs
          ++ [attributeLine "phenotype" "1,2", "@data"]
          ++ rows.map (fun r => String.intercalate "," r)
          = (("@relation \x27" ++ data ++ "\x27") :: attrs
              ++ [attributeLine "phenotype" "1,2"])
            ++ "@data" :: rows.map (fun r => String.intercalate "," r) := by
        simp
      obtain ⟨ht, hd⟩ := takeWhile_until_data (rows.map (fun r => String.intercalate "," r))
        (("@relation \x27" ++ data ++ "\x27") :: attrs ++ [attributeLine "phenotype" "1,2"])
        hpre
      refine ⟨attrs, rfl, rfl, ?_, ?_⟩
      · rw [headerSection, hassoc, ht]
      · rw [dataSection, hassoc, hd]
        simp

/-! ## Aggregate lemmas about `runTranscode` -/

theorem runTranscode_ok (map_file ped_file : List String) (vped_file : Option (List String))
    (o : RunOut) (h : runTranscode map_file ped_file vped_file = .ok o) :
    ∃ f0, build_features map_file = .ok (f0, o.snp_list) ∧ keys o.features = keys f0 ∧
      (∀ snp ∈ o.snp_list, ∃ alph, dictFind o.features snp = some alph ∧ "00" ∈ alph) ∧
      (∀ r ∈ o.rows ++ (o.vrows.getD []), ∃ out p, r = out ++ [p] ∧
        genotypesOk o.snp_list o.features out ∧
        ∃ line ∈ ped_file ++ (vped_file.getD []),
          (pySplit line).get? 5 = some p ∧ p ≠ MISSING) := by
  cases hb : build_features map_file with
  | error e =>
      simp only [runTranscode, hb] at h
      exact Except.noConfusion h
  | ok res0 =>
      obtain ⟨f0, sl⟩ := res0
      cases hw1 : write_examplars sl f0 [] ped_file with
      | error e =>
          simp only [runTranscode, hb, hw1] at h
          exact Except.noConfusion h
      | ok res1 =>
          obtain ⟨f1, rows1⟩ := res1
          obtain ⟨hk1, hle1, newRows1, hr1, hprops1⟩ :=
            write_examplars_ok sl ped_file f0 [] f1 rows1 hw1
          obtain ⟨_, _, hseed⟩ := build_features_inv map_file f0 sl hb
          cases vped_file with
          | none =>
              simp only [runTranscode, hb, hw1] at h
              rw [Except.ok.injEq] at h
              subst h
              refine ⟨f0, rfl, hk1, ?_, ?_⟩
              · intro snp hs
                obtain ⟨alph, halph, hsub⟩ := hle1 snp ["00"] (hseed snp hs)
                exact ⟨alph, halph, hsub (by simp)⟩
              · intro r hr
                simp only [Option.getD_none, List.append_nil] at hr
                rw [hr1] at hr
                simp only [List.nil_append] at hr
                obtain ⟨out, p, he, hg, line, hl, hp, hnp⟩ := hprops1 r hr
                exact ⟨out, p, he, hg, line, by simpa using hl, hp, hnp⟩
          | some vped =>
              cases hw2 : write_examplars sl f1 [] vped with
              | error e =>
                  simp only [runTranscode, hb, hw1, hw2] at h
                  exact Except.noConfusion h
              | ok res2 =>
                  obtain ⟨f2, vrows⟩ := res2
                  simp only [runTranscode, hb, hw1, hw2] at h
                  rw [Except.ok.injEq] at h
                  subst h
                  obtain ⟨hk2, hle2, newRows2, hr2, hprops2⟩ :=
                    write_examplars_ok sl vped f1 [] f2 vrows hw2
                  refine ⟨f0, rfl, hk2.trans hk1, ?_, ?_⟩
                  · intro snp hs
                    obtain ⟨alph, halph, hsub⟩ :=
                      dictLE_trans hle1 hle2 snp ["00"] (hseed snp hs)
                    exact ⟨alph, halph, hsub (by simp)⟩
                  · intro r hr
                    simp only [Option.getD_some] at hr
                    rcases List.mem_append.mp hr with hrp | hrv
                    · rw [hr1] at hrp
                      simp only [List.nil_append] at hrp
                      obtain ⟨out, p, he, hg, line, hl, hp, hnp⟩ := hprops1 r hrp
                      exact ⟨out, p, he, genotypesOk_mono hle2 hg, line,
                        List.mem_append.mpr (Or.inl hl), hp, hnp⟩
                    · rw [hr2] at hrv
                      simp only [List.nil_append] at hrv
                      obtain ⟨out, p, he, hg, line, hl, hp, hnp⟩ := hprops2 r hrv
                      exact ⟨out, p, he, hg, line,
                        List.mem_append.mpr (Or.inr (by simpa using hl)), hp, hnp⟩

theorem write_examplars_skip_missing (snp_list : List String) (line : String)
    (after : List String) (h : (pySplit line).get? 5 = some MISSING) :
    ∀ (before : List String) (f : Dict) (rows : List (List String)),
    write_examplars snp_list f rows (before ++ line :: after)
      = write_examplars snp_list f rows (before ++ after)
  | [], f, rows => by
      simp only [List.nil_append, write_examplars,
        processLine_missing snp_list f rows line h]
  | b :: bs, f, rows => by
      simp only [List.cons_append, write_examplars]
      cases hpb : processLine snp_list f rows b with
      | error e => rfl
      | ok res =>
          obtain ⟨f1, rows1⟩ := res
          exact write_examplars_skip_missing snp_list line after h bs f1 rows1

/-! ## The claims -/

/-- C1: in every run (primary dataset alone or primary plus validation),
every genotype encoding appearing at column `i` of an emitted data row
belongs to the alphabet set of the marker at position `i` — the set the
output header declares for that marker — and every marker's alphabet
contains the missing-sentinel encoding `00` even if never observed; under
the precondition that every pedigree phenotype token is `1`, `2` or `-9`,
the phenotype (last column) of every emitted row is `1` or `2`, the values
declared for the phenotype attribute. -/
theorem C1_alphabets_cover_rows (map_file ped_file : List String)
    (vped_file : Option (List String)) (o : RunOut)
    (h : runTranscode map_file ped_file vped_file = .ok o)
    (hph : ∀ line ∈ ped_file ++ (vped_file.getD []), ∀ p,
      (pySplit line).get? 5 = some p → p = "1" ∨ p = "2" ∨ p = MISSING) :
    (∀ snp ∈ o.snp_list, ∃ alph, dictFind o.features snp = some alph ∧ "00" ∈ alph) ∧
    ∀ r ∈ o.rows ++ (o.vrows.getD []),
      genotypesOk o.snp_list o.features r.dropLast ∧
      ∃ p, r.getLast? = some p ∧ (p = "1" ∨ p = "2") := by
  obtain ⟨f0, _, _, hseed, hrows⟩ := runTranscode_ok map_file ped_file vped_file o h
  refine ⟨hseed, ?_⟩
  intro r hr
  obtain ⟨out, p, rfl, hg, line, hl, hp, hnp⟩ := hrows r hr
  refine ⟨by rw [List.dropLast_concat]; exact hg, p, List.getLast?_concat out, ?_⟩
  rcases hph line hl p hp with h1 | h2 | hmiss
  · exact Or.inl h1
  · exact Or.inr h2
  · exact absurd hmiss hnp

theorem C1_witness :
    (∃ alph, dictFind [("rs1", ["00", "AA", "AC"]), ("rs2", ["00", "GT", "GG"])] "rs1"
        = some alph ∧ "00" ∈ alph) ∧
    genotypesOk ["rs1", "rs2"] [("rs1", ["00", "AA", "AC"]), ("rs2", ["00", "GT", "GG"])]
      (["AA", "GT", "2"] : List String).dropLast ∧
    ∃ p, (["AA", "GT", "2"] : List String).getLast? = some p ∧ (p = "1" ∨ p = "2") := by
  have h := C1_alphabets_cover_rows ["1 rs1", "1 rs2"] ["fam1 ind1 0 0 1 2 A A G T"]
    (some ["fam2 ind2 0 0 1 1 A C G G"])
    ⟨[("rs1", ["00", "AA", "AC"]), ("rs2", ["00", "GT", "GG"])], ["rs1", "rs2"],
      [["AA", "GT", "2"]], some [["AC", "GG", "1"]]⟩ rfl ?hph
  case hph =>
    intro line hl p hp
    have hl2 : line = "fam1 ind1 0 0 1 2 A A G T" ∨ line = "fam2 ind2 0 0 1 1 A C G G" := by
      simpa using hl
    rcases hl2 with rfl | rfl
    · rw [(rfl : (pySplit "fam1 ind1 0 0 1 2 A A G T").get? 5 = some "2")] at hp
      exact Or.inr (Or.inl (Option.some.inj hp).symm)
    · rw [(rfl : (pySplit "fam2 ind2 0 0 1 1 A C G G").get? 5 = some "1")] at hp
      exact Or.inl (Option.some.inj hp).symm
  obtain ⟨hrow, hph2⟩ := h.2 ["AA", "GT", "2"] (by simp)
  exact ⟨h.1 "rs1" (by simp), hrow, hph2⟩

/-- C7: a pedigree line whose phenotype token (index 5) is the missing
sentinel `-9` leaves all state unchanged: processing it returns the feature
dict and the rows written so far exactly as they were — no row is appended
and no marker set is mutated. -/
theorem C7_missing_phenotype_skipped (snp_list : List String) (features : Dict)
    (rows : List (List String)) (line : String)
    (h : (pySplit line).get? 5 = some MISSING) :
    processLine snp_list features rows line = .ok (features, rows) :=
  processLine_missing snp_list features rows line h

theorem C7_witness :
    (pySplit "fam1 ind1 0 0 1 -9 A A G T").get? 5 = some MISSING ∧
    processLine ["rs1", "rs2"] [("rs1", ["00"]), ("rs2", ["00"])] []
      "fam1 ind1 0 0 1 -9 A A G T" = .ok ([("rs1", ["00"]), ("rs2", ["00"])], []) :=
  ⟨rfl, C7_missing_phenotype_skipped ["rs1", "rs2"] [("rs1", ["00"]), ("rs2", ["00"])] []
    "fam1 ind1 0 0 1 -9 A A G T" rfl⟩

/-- C9: a pedigree line whose phenotype token is `-9` is discarded before
any genotype parsing, so the transcoding of a pedigree containing it equals
the transcoding of the pedigree with the line removed — in particular a
malformed genotype section on such a line can never cause an error. -/
theorem C9_missing_line_inert (snp_list : List String) (f : Dict)
    (rows : List (List String)) (before after : List String) (line : String)
    (h : (pySplit line).get? 5 = some MISSING) :
    write_examplars snp_list f rows (before ++ line :: after)
      = write_examplars snp_list f rows (before ++ after) :=
  write_examplars_skip_missing snp_list line after h before f rows

theorem C9_witness :
    (pySplit "fam2 ind2 0 0 1 -9 A").get? 5 = some MISSING ∧
    write_examplars ["rs1"] [("rs1", ["00"])] []
        ["fam1 ind1 0 0 1 2 A A", "fam2 ind2 0 0 1 -9 A"]
      = write_examplars ["rs1"] [("rs1", ["00"])] [] ["fam1 ind1 0 0 1 2 A A"] := by
  constructor
  · rfl
  · have h := C9_missing_line_inert ["rs1"] [("rs1", ["00"])] []
      ["fam1 ind1 0 0 1 2 A A"] [] "fam2 ind2 0 0 1 -9 A" rfl
    simpa using h

/-- C10: transcoding only grows the per-marker sets: every entry of the
dict passed into `write_examplars` survives in the resulting dict with a
superset value (`dictLE`); chained over the primary and validation passes,
each marker's set keeps `00` and every encoding observed in any earlier
pass. -/
theorem C10_alphabets_monotone (snp_list : List String) (f : Dict)
    (rows : List (List String)) (ped_file : List String) (f' : Dict)
    (rows' : List (List String))
    (h : write_examplars snp_list f rows ped_file = .ok (f', rows')) :
    dictLE f f' :=
  (write_examplars_ok snp_list ped_file f rows f' rows' h).2.1

theorem C10_witness : dictLE [("rs1", ["00"])] [("rs1", ["00", "AA"])] :=
  C10_alphabets_monotone ["rs1"] [("rs1", ["00"])] [] ["fam1 ind1 0 0 1 2 A A"]
    [("rs1", ["00", "AA"])] [["AA", "2"]] rfl

/-- C8: worked example — a map listing exactly the markers `rs1` and `rs2`
and the single pedigree line `fam1 ind1 0 0 1 2 A A G T`: the individual is
retained (phenotype `2`), the emitted data row is exactly `AA,GT,2`, and
the header declares exactly `@attribute rs1 {00,AA}` and
`@attribute rs2 {00,GT}` (alphabets include the seeded missing code `00`). -/
theorem C8_worked_example :
    run ["1 rs1", "1 rs2"] ["fam1 ind1 0 0 1 2 A A G T"] none "dataset" "" =
      .ok (["@relation \x27dataset\x27",
            "@attribute rs1 \x7b00,AA\x7d",
            "@attribute rs2 \x7b00,GT\x7d",
            "@attribute phenotype \x7b1,2\x7d",
            "@data",
            "AA,GT,2"], none) := rfl

theorem write_examplars_error_of_bad_line (snp_list : List String) :
    ∀ (ped : List String) (f : Dict) (rows : List (List String)),
    (∀ s ∈ snp_list, s ∈ keys f) → f.length = snp_list.length →
    (∃ line ∈ ped, ∃ p, (pySplit line).get? 5 = some p ∧ p ≠ MISSING ∧
        (pySplit line).length ≠ 6 + 2 * snp_list.length) →
    ∃ e, write_examplars snp_list f rows ped = .error e
  | [], f, rows => by
      intro _ _ hbad
      obtain ⟨line, hl, _⟩ := hbad
      exact absurd hl (List.not_mem_nil line)
  | hd :: rest, f, rows => by
      intro hkeys hflen hbad
      cases hpl : processLine snp_list f rows hd with
      | error e => exact ⟨e, by simp only [write_examplars, hpl]⟩
      | ok res =>
          obtain ⟨f1, rows1⟩ := res
          obtain ⟨hk1, _, _⟩ := processLine_ok snp_list f rows hd f1 rows1 hpl
          obtain ⟨line, hl, p, hp, hnp, hlen⟩ := hbad
          rcases List.mem_cons.mp hl with rfl | hl'
          · obtain ⟨e, he⟩ := processLine_error_of_misaligned snp_list f rows line p
              hkeys hflen hp hnp hlen
            rw [hpl] at he
            exact Except.noConfusion he
          · obtain ⟨e, he⟩ := write_examplars_error_of_bad_line snp_list rest f1 rows1
              (fun s hs => by rw [hk1]; exact hkeys s hs)
              (by rw [keys_eq_length hk1]; exact hflen)
              ⟨line, hl', p, hp, hnp, hlen⟩
            exact ⟨e, by simp only [write_examplars, hpl]; exact he⟩

/-- C4: with distinct marker identifiers, a retained pedigree line (token 5
present and not `-9`) whose token count differs from 6 + 2×marker-count —
odd allele tails and short lines included, so the number of extracted pairs
cannot match the marker count — aborts the transcoding pass with an error,
and the whole run aborts, producing no completed output. -/
theorem C4_misalignment_fatal (map_file ped_file : List String) (data vdata : String)
    (f0 : Dict) (sl : List String)
    (hb : build_features map_file = .ok (f0, sl)) (hnd : sl.Nodup)
    (line : String) (hmem : line ∈ ped_file) (p : String)
    (hp : (pySplit line).get? 5 = some p) (hnp : p ≠ MISSING)
    (hlen : (pySplit line).length ≠ 6 + 2 * sl.length) :
    (write_examplars sl f0 [] ped_file).isOk = false ∧
    (run map_file ped_file none data vdata).isOk = false := by
  have hkeys0 : keys f0 = sl := build_features_keys map_file f0 sl hb hnd
  obtain ⟨e, he⟩ := write_examplars_error_of_bad_line sl ped_file f0 []
    (fun s hs => by rw [hkeys0]; exact hs) (by rw [← length_keys, hkeys0])
    ⟨line, hmem, p, hp, hnp, hlen⟩
  constructor
  · rw [he]
    rfl
  · simp only [run, runTranscode, hb, he]
    rfl

theorem C4_witness :
    (write_examplars ["rs1", "rs2"] [("rs1", ["00"]), ("rs2", ["00"])] []
        ["fam1 ind1 0 0 1 2 A A G"]).isOk = false ∧
    (run ["1 rs1", "1 rs2"] ["fam1 ind1 0 0 1 2 A A G"] none "d" "v").isOk = false :=
  C4_misalignment_fatal ["1 rs1", "1 rs2"] ["fam1 ind1 0 0 1 2 A A G"] "d" "v"
    [("rs1", ["00"]), ("rs2", ["00"])] ["rs1", "rs2"] rfl (by decide)
    "fam1 ind1 0 0 1 2 A A G" (by simp) "2" rfl (by decide) (by decide)

/-- C2: for well-formed inputs (map lines with at least two fields yielding
distinct marker identifiers; every pedigree line with a phenotype token and,
when retained, exactly 6 + 2×marker-count tokens), the run succeeds and the
number of data rows in the emitted output equals the number of pedigree
lines minus the number of lines whose phenotype token is `-9`. -/
theorem C2_row_count (map_file ped_file : List String) (data vdata : String)
    (f0 : Dict) (sl : List String)
    (hb : build_features map_file = .ok (f0, sl)) (hnd : sl.Nodup)
    (hped : ∀ line ∈ ped_file, ∃ p, (pySplit line).get? 5 = some p ∧
        (p ≠ MISSING → (pySplit line).length = 6 + 2 * sl.length)) :
    ∃ arff, run map_file ped_file none data vdata = .ok (arff, none) ∧
      (dataSection arff).length
        = ped_file.length
          - (ped_file.filter (fun l => (pySplit l).get? 5 = some MISSING)).length := by
  have hkeys0 : keys f0 = sl := build_features_keys map_file f0 sl hb hnd
  have hkeys : ∀ s ∈ sl, s ∈ keys f0 := fun s hs => by rw [hkeys0]; exact hs
  have hflen : f0.length = sl.length := by rw [← length_keys, hkeys0]
  obtain ⟨f1, newRows, hwe, hcount⟩ := write_examplars_count sl ped_file f0 [] hkeys hflen hped
  obtain ⟨hk1, _, _⟩ := write_examplars_ok sl ped_file f0 [] f1 _ hwe
  have hkeys1 : ∀ s ∈ sl, s ∈ keys f1 := fun s hs => by rw [hk1, hkeys0]; exact hs
  obtain ⟨attrs, hattrs⟩ := attrLines_some f1 sl hkeys1
  have hw : write_arff_file f1 sl ([] ++ newRows) data
      = some (("@relation \x27" ++ data ++ "\x27") :: attrs
          ++ [attributeLine "phenotype" "1,2", "@data"]
          ++ ([] ++ newRows).map (fun r => String.intercalate "," r)) := by
    simp only [write_arff_file, hattrs]
  refine ⟨("@relation \x27" ++ data ++ "\x27") :: attrs
      ++ [attributeLine "phenotype" "1,2", "@data"]
      ++ ([] ++ newRows).map (fun r => String.intercalate "," r), ?_, ?_⟩
  · simp only [run, runTranscode, hb, hwe, hw]
  · obtain ⟨_, _, _, _, hdata⟩ := write_arff_file_structure f1 sl ([] ++ newRows) data _ hw
    rw [hdata]
    simp only [List.nil_append, List.length_map]
    omega

theorem C2_witness :
    (dataSection ["@relation \x27d\x27", "@attribute rs1 \x7b00,AA\x7d",
        "@attribute rs2 \x7b00,GT\x7d", "@attribute phenotype \x7b1,2\x7d",
        "@data", "AA,GT,2"]).length
      = (["fam1 ind1 0 0 1 2 A A G T", "fam2 ind2 0 0 1 -9 A A G T"] : List String).length
        - ((["fam1 ind1 0 0 1 2 A A G T", "fam2 ind2 0 0 1 -9 A A G T"] : List String).filter
            (fun l => (pySplit l).get? 5 = some MISSING)).length := by
  have hped : ∀ line ∈ (["fam1 ind1 0 0 1 2 A A G T", "fam2 ind2 0 0 1 -9 A A G T"] :
      List String), ∃ p, (pySplit line).get? 5 = some p ∧
      (p ≠ MISSING → (pySplit line).length = 6 + 2 * (["rs1", "rs2"] : List String).length) := by
    intro line hl
    have hl2 : line = "fam1 ind1 0 0 1 2 A A G T" ∨ line = "fam2 ind2 0 0 1 -9 A A G T" := by
      simpa using hl
    rcases hl2 with rfl | rfl
    · exact ⟨"2", rfl, fun _ => rfl⟩
    · exact ⟨"-9", rfl, fun hc => absurd rfl hc⟩
  obtain ⟨arff, harff, hlen⟩ := C2_row_count ["1 rs1", "1 rs2"]
    ["fam1 ind1 0 0 1 2 A A G T", "fam2 ind2 0 0 1 -9 A A G T"] "d" "v"
    [("rs1", ["00"]), ("rs2", ["00"])] ["rs1", "rs2"] rfl (by decide) hped
  have harff2 := harff.symm.trans (show run ["1 rs1", "1 rs2"]
      ["fam1 ind1 0 0 1 2 A A G T", "fam2 ind2 0 0 1 -9 A A G T"] none "d" "v"
      = .ok (["@relation \x27d\x27", "@attribute rs1 \x7b00,AA\x7d",
          "@attribute rs2 \x7b00,GT\x7d", "@attribute phenotype \x7b1,2\x7d",
          "@data", "AA,GT,2"], none) from rfl)
  have hae : arff = ["@relation \x27d\x27", "@attribute rs1 \x7b00,AA\x7d",
      "@attribute rs2 \x7b00,GT\x7d", "@attribute phenotype \x7b1,2\x7d",
      "@data", "AA,GT,2"] := by
    simpa using harff2
  rw [← hae]
  exact hlen

/-- C3: when a validation dataset is supplied and the run succeeds, the two
emitted files' header sections are identical apart from the relation-name
line: each file opens with its own relation line, and the remainders of the
two header sections (the per-marker attribute lines and the phenotype
attribute line) are equal. -/
theorem C3_headers_identical (map_file ped_file vped_file : List String)
    (data vdata : String) (arff varff : List String)
    (h : run map_file ped_file (some vped_file) data vdata = .ok (arff, some varff)) :
    arff.head? = some ("@relation \x27" ++ data ++ "\x27") ∧
    varff.head? = some ("@relation \x27" ++ vdata ++ "\x27") ∧
    (headerSection arff).drop 1 = (headerSection varff).drop 1 := by
  cases hb : build_features map_file with
  | error e =>
      simp only [run, runTranscode, hb] at h
      exact Except.noConfusion h
  | ok res0 =>
      obtain ⟨f0, sl⟩ := res0
      cases hw1 : write_examplars sl f0 [] ped_file with
      | error e =>
          simp only [run, runTranscode, hb, hw1] at h
          exact Except.noConfusion h
      | ok res1 =>
          obtain ⟨f1, rows1⟩ := res1
          cases hw2 : write_examplars sl f1 [] vped_file with
          | error e =>
              simp only [run, runTranscode, hb, hw1, hw2] at h
              exact Except.noConfusion h
          | ok res2 =>
              obtain ⟨f2, vrows⟩ := res2
              cases ha1 : write_arff_file f2 sl rows1 data with
              | none =>
                  simp only [run, runTranscode, hb, hw1, hw2, ha1] at h
                  exact Except.noConfusion h
              | some a1 =>
                  cases ha2 : write_arff_file f2 sl vrows vdata with
                  | none =>
                      simp only [run, runTranscode, hb, hw1, hw2, ha1, ha2] at h
                      exact Except.noConfusion h
                  | some a2 =>
                      simp only [run, runTranscode, hb, hw1, hw2, ha1, ha2] at h
                      rw [Except.ok.injEq, Prod.mk.injEq, Option.some.injEq] at h
                      obtain ⟨rfl, rfl⟩ := h
                      obtain ⟨attrs, hat, harff, hhead, -⟩ :=
                        write_arff_file_structure f2 sl rows1 data a1 ha1
                      obtain ⟨attrs2, hat2, harff2, hhead2, -⟩ :=
                        write_arff_file_structure f2 sl vrows vdata a2 ha2
                      rw [hat] at hat2
                      obtain rfl : attrs = attrs2 := Option.some.inj hat2
                      refine ⟨?_, ?_, ?_⟩
                      · rw [harff]
                        rfl
                      · rw [harff2]
                        rfl
                      · rw [hhead, hhead2]
                        rfl

theorem C3_witness :
    (["@relation \x27disc\x27", "@attribute rs1 \x7b00,AA,AC\x7d",
        "@attribute rs2 \x7b00,GT,GG\x7d", "@attribute phenotype \x7b1,2\x7d",
        "@data", "AA,GT,2"] : List String).head? = some ("@relation \x27disc\x27") ∧
    (["@relation \x27valid\x27", "@attribute rs1 \x7b00,AA,AC\x7d",
        "@attribute rs2 \x7b00,GT,GG\x7d", "@attribute phenotype \x7b1,2\x7d",
        "@data", "AC,GG,1"] : List String).head? = some ("@relation \x27valid\x27") ∧
    (headerSection ["@relation \x27disc\x27", "@attribute rs1 \x7b00,AA,AC\x7d",
        "@attribute rs2 \x7b00,GT,GG\x7d", "@attribute phenotype \x7b1,2\x7d",
        "@data", "AA,GT,2"]).drop 1
      = (headerSection ["@relation \x27valid\x27", "@attribute rs1 \x7b00,AA,AC\x7d",
          "@attribute rs2 \x7b00,GT,GG\x7d", "@attribute phenotype \x7b1,2\x7d",
          "@data", "AC,GG,1"]).drop 1 :=
  C3_headers_identical ["1 rs1", "1 rs2"] ["fam1 ind1 0 0 1 2 A A G T"]
    ["fam2 ind2 0 0 1 1 A C G G"] "disc" "valid"
    ["@relation \x27disc\x27", "@attribute rs1 \x7b00,AA,AC\x7d",
      "@attribute rs2 \x7b00,GT,GG\x7d", "@attribute phenotype \x7b1,2\x7d",
      "@data", "AA,GT,2"]
    ["@relation \x27valid\x27", "@attribute rs1 \x7b00,AA,AC\x7d",
      "@attribute rs2 \x7b00,GT,GG\x7d", "@attribute phenotype \x7b1,2\x7d",
      "@data", "AC,GG,1"] rfl

/-- C5 counterexample: for the map `["1 rs1", "2 rs1"]` with a duplicated
marker identifier, index building succeeds (one merged dict entry, the
marker list keeps both occurrences), but transcoding the well-formed
pedigree line `fam1 ind1 0 0 1 2 A A G T` aborts with the alignment
assertion error instead of proceeding: the claim that transcoding proceeds
rather than failing is false. -/
theorem C5_counterexample :
    build_features ["1 rs1", "2 rs1"] = .ok ([("rs1", ["00"])], ["rs1", "rs1"]) ∧
    write_examplars ["rs1", "rs1"] [("rs1", ["00"])] [] ["fam1 ind1 0 0 1 2 A A G T"]
      = .error .assertError := ⟨rfl, rfl⟩

/-- C5 (amended): duplicate marker identifiers are not detected — index
building succeeds, the dict has strictly fewer entries than the marker list,
with one shared entry per identifier into which all alphabet writes merge —
but transcoding a well-formed pedigree line then aborts at the alignment
assertion (`len(outline) == len(features)` fails), rather than proceeding. -/
theorem C5_duplicate_markers (map_file : List String) (f0 : Dict) (sl : List String)
    (hb : build_features map_file = .ok (f0, sl)) (hdup : ¬ sl.Nodup) :
    f0.length < sl.length ∧ (keys f0).Nodup ∧ (∀ s, s ∈ keys f0 ↔ s ∈ sl) ∧
    ∀ (f : Dict) (rows : List (List String)) (line : String) (p : String),
      keys f = keys f0 → (pySplit line).get? 5 = some p → p ≠ MISSING →
      (pySplit line).length = 6 + 2 * sl.length →
      processLine sl f rows line = .error .assertError := by
  obtain ⟨hnd0, hmem, -⟩ := build_features_inv map_file f0 sl hb
  have hperm : List.Perm (keys f0) sl.dedup := (List.perm_ext_iff_of_nodup hnd0
    (List.nodup_dedup sl)).mpr (fun a => by rw [List.mem_dedup]; exact hmem a)
  have hlen0 : f0.length < sl.length := by
    have h1 : f0.length = sl.dedup.length := by
      rw [← length_keys]
      exact hperm.length_eq
    have h2 : sl.dedup.length ≤ sl.length := (List.dedup_sublist sl).length_le
    have h3 : sl.dedup ≠ sl := fun hc => hdup (List.dedup_eq_self.mp hc)
    have h4 : sl.dedup.length ≠ sl.length :=
      fun hc => h3 ((List.dedup_sublist sl).eq_of_length hc)
    omega
  refine ⟨hlen0, hnd0, hmem, ?_⟩
  intro f rows line p hkf hp hnp hl
  have hkeysf : ∀ s ∈ sl, s ∈ keys f := fun s hs => by
    rw [hkf]
    exact (hmem s).mpr hs
  have halen : ((pySplit line).drop 6).length = 2 * sl.length := by simp [hl]
  obtain ⟨f2, out, hpair⟩ := pairLoop_ok_of_even sl sl.length ((pySplit line).drop 6)
    f 0 [] halen (by omega) hkeysf
  obtain ⟨hkeys2, hlen2, -⟩ := pairLoop_ok sl ((pySplit line).drop 6) f 0 [] f2 out hpair
  have hzl : (([] : List String)).length = 0 := rfl
  rw [halen, hzl] at hlen2
  have hne : ¬ out.length = f2.length := by
    have hf2 : f2.length = f.length := keys_eq_length hkeys2
    have hff0 : f.length = f0.length := by
      rw [← length_keys, hkf, length_keys]
    omega
  rw [processLine_not_missing sl f rows line p hp hnp, hpair]
  dsimp only
  rw [if_neg hne]

theorem C5_witness :
    ([("rs1", ["00"])] : Dict).length < (["rs1", "rs1"] : List String).length ∧
    processLine ["rs1", "rs1"] [("rs1", ["00"])] [] "fam1 ind1 0 0 1 2 A A G T"
      = .error .assertError := by
  have h := C5_duplicate_markers ["1 rs1", "2 rs1"] [("rs1", ["00"])] ["rs1", "rs1"]
    rfl (by decide)
  exact ⟨h.1, h.2.2.2 [("rs1", ["00"])] [] "fam1 ind1 0 0 1 2 A A G T" "2"
    rfl rfl (by decide) rfl⟩

/-- C6: building the marker index fails (with an error, producing no marker
list) if and only if some map line has fewer than two whitespace-delimited
fields; on success, the marker list is the second field of every line in
input-line order and every listed marker maps to the set `{'00'}`. -/
theorem C6_build_features_contract (map_file : List String) :
    ((∃ e, build_features map_file = .error e) ↔
      ∃ line ∈ map_file, (pySplit line).length < 2) ∧
    ∀ f sl, build_features map_file = .ok (f, sl) →
      sl.length = map_file.length ∧
      (∀ i l, map_file.get? i = some l → sl.get? i = (pySplit l).get? 1) ∧
      (∀ s ∈ sl, dictFind f s = some ["00"]) := by
  constructor
  · constructor
    · rintro ⟨e, he⟩
      obtain ⟨line, hl, hn⟩ := (buildFeaturesAux_error map_file [] []).mp ⟨e, he⟩
      refine ⟨line, hl, ?_⟩
      rw [List.get?_eq_none] at hn
      omega
    · rintro ⟨line, hl, hlt⟩
      exact (buildFeaturesAux_error map_file [] []).mpr
        ⟨line, hl, List.get?_eq_none.mpr (by omega)⟩
  · intro f sl h
    obtain ⟨tl, hsl, hlen, hpt⟩ := buildFeaturesAux_snps map_file [] [] f sl h
    simp only [List.nil_append] at hsl
    subst hsl
    obtain ⟨-, -, hval⟩ := build_features_inv map_file f sl h
    exact ⟨hlen, hpt, hval⟩

theorem C6_witness :
    (["rs1", "rs2"] : List String).length = (["1 rs1", "1 rs2"] : List String).length ∧
    (["rs1", "rs2"] : List String).get? 0 = (pySplit "1 rs1").get? 1 ∧
    dictFind [("rs1", ["00"]), ("rs2", ["00"])] "rs1" = some ["00"] := by
  have h := (C6_build_features_contract ["1 rs1", "1 rs2"]).2
    [("rs1", ["00"]), ("rs2", ["00"])] ["rs1", "rs2"] rfl
  exact ⟨h.1, h.2.1 0 "1 rs1" rfl, h.2.2 "rs1" (by decide)⟩

end Plink2Weka
